import Mathlib

/-!
Verification of the ABA (ping-pong) messaging core of the `ball-v2` OApp.

The development shallowly embeds:
* `Uint256MsgCodec` (contracts/libs/Uint256MsgCodec.sol): the wire codec for
  vanilla (32-byte) and ABA (`abi.encode(uint256, uint16, bytes)`) payloads,
  including the bounds checks the Solidity 0.8 ABI decoder performs;
* `MyOApp` (contracts/MyOApp.sol): the `send` / `quote` / `_lzReceive`
  state machine, with uint256 checked arithmetic made explicit.

Byte strings are `List Nat` with every entry below 256; 256-bit words are
`Nat` values below `2 ^ 256`.
-/

namespace Uint256MsgCodec

/-- Big-endian byte expansion of `v mod 256^n` into exactly `n` bytes. -/
def beBytesN : Nat → Nat → List Nat
  | 0, _ => []
  | n + 1, v => beBytesN n (v / 256) ++ [v % 256]

/-- Big-endian word value of a byte list. -/
def beWord (bs : List Nat) : Nat :=
  bs.foldl (fun a b => a * 256 + b) 0

/-- The 32-byte word of `msg` starting at byte offset `off` (EVM word read). -/
def word (msg : List Nat) (off : Nat) : Nat :=
  beWord ((msg.drop off).take 32)

/-- Zero-pads a byte string on the right to a 32-byte boundary, as the ABI
tail encoding of `bytes` does. -/
def padRight32 (r : List Nat) : List Nat :=
  r ++ List.replicate ((32 - r.length % 32) % 32) 0

/-- Errors of the codec: the explicit `InvalidMsgLength` revert, and any
revert raised by the compiler-generated `abi.decode` bounds checks. -/
inductive CodecErr where
  | invalidMsgLength
  | abiDecodeRevert
  deriving DecidableEq, Repr

/-- `Uint256MsgCodec.encode`: `abi.encode(uint256)`, a single 32-byte word. -/
def encode (v : Nat) : List Nat :=
  beBytesN 32 v

/-- `Uint256MsgCodec.decode`: reverts with `InvalidMsgLength` unless the
input is exactly 32 bytes, then reads the word. -/
def decode (msg : List Nat) : Except CodecErr Nat :=
  if msg.length ≠ 32 then .error .invalidMsgLength
  else .ok (beWord (msg.take 32))

/-- The `ABA_TYPE` constant (uint16). -/
def ABA_TYPE : Nat := 2

/-- `Uint256MsgCodec.encodeABA`: `abi.encode(_value, ABA_TYPE, _returnOptions)` —
three head slots (value, type, tail offset 96) followed by the tail
(returnOptions length, then its bytes padded to a 32-byte boundary). -/
def encodeABA (v : Nat) (r : List Nat) : List Nat :=
  beBytesN 32 v ++ beBytesN 32 ABA_TYPE ++ beBytesN 32 96 ++
    beBytesN 32 r.length ++ padRight32 r

/-- `Uint256MsgCodec.decodeABA`: a 32-byte input is a vanilla message
(`msgType = 0`, empty options); otherwise the payload goes through
`abi.decode(_msg, (uint256, uint16, bytes))`, whose generated code checks
that the head region is at least 96 bytes, that the `uint16` word is clean,
that the tail offset fits in 64 bits and leaves room for the length word,
and that the declared tail length fits in 64 bits and does not overrun the
buffer. -/
def decodeABA (msg : List Nat) : Except CodecErr (Nat × Nat × List Nat) :=
  if msg.length = 32 then
    .ok (beWord (msg.take 32), 0, [])
  else if msg.length < 96 then .error .abiDecodeRevert
  else
    let value := word msg 0
    let typeWord := word msg 32
    if 2 ^ 16 ≤ typeWord then .error .abiDecodeRevert
    else
      let off := word msg 64
      if 2 ^ 64 ≤ off then .error .abiDecodeRevert
      else if msg.length < off + 32 then .error .abiDecodeRevert
      else
        let len := word msg off
        if 2 ^ 64 ≤ len then .error .abiDecodeRevert
        else if msg.length < off + 32 + len then .error .abiDecodeRevert
        else .ok (value, typeWord, (msg.drop (off + 32)).take len)

theorem beBytesN_length (n v : Nat) : (beBytesN n v).length = n := by
  induction n generalizing v with
  | zero => rfl
  | succ n ih => simp [beBytesN, ih]

theorem beWord_append_singleton (bs : List Nat) (b : Nat) :
    beWord (bs ++ [b]) = beWord bs * 256 + b := by
  simp [beWord, List.foldl_append]

theorem beWord_beBytesN (n v : Nat) (h : v < 256 ^ n) :
    beWord (beBytesN n v) = v := by
  induction n generalizing v with
  | zero =>
    interval_cases v
    rfl
  | succ n ih =>
    have hdiv : v / 256 < 256 ^ n := by
      rw [Nat.div_lt_iff_lt_mul (by norm_num)]
      calc v < 256 ^ (n + 1) := h
        _ = 256 ^ n * 256 := by ring
    rw [beBytesN, beWord_append_singleton, ih _ hdiv]
    omega

theorem beWord_lt_aux (bs : List Nat) (a : Nat) (hb : ∀ b ∈ bs, b < 256) :
    bs.foldl (fun a b => a * 256 + b) a < (a + 1) * 256 ^ bs.length := by
  induction bs generalizing a with
  | nil => simp
  | cons b bs ih =>
    have hb0 : b < 256 := hb b (by simp)
    have := ih (a * 256 + b) (fun x hx => hb x (by simp [hx]))
    calc (b :: bs).foldl (fun a b => a * 256 + b) a
        = bs.foldl (fun a b => a * 256 + b) (a * 256 + b) := by simp
      _ < (a * 256 + b + 1) * 256 ^ bs.length := this
      _ ≤ ((a + 1) * 256) * 256 ^ bs.length := by
          have : a * 256 + b + 1 ≤ (a + 1) * 256 := by omega
          exact Nat.mul_le_mul_right _ this
      _ = (a + 1) * 256 ^ (b :: bs).length := by
          simp [List.length_cons, pow_succ]; ring

theorem beWord_lt (bs : List Nat) (hb : ∀ b ∈ bs, b < 256) :
    beWord bs < 256 ^ bs.length := by
  simpa [beWord] using beWord_lt_aux bs 0 hb

theorem pow256_32 : 256 ^ 32 = 2 ^ 256 := by norm_num

theorem beBytesN_lt (n v : Nat) : ∀ b ∈ beBytesN n v, b < 256 := by
  induction n generalizing v with
  | zero => simp [beBytesN]
  | succ n ih =>
    intro b hb
    rw [beBytesN, List.mem_append] at hb
    rcases hb with h | h
    · exact ih _ b h
    · simp at h
      omega

theorem word_here (xs rest : List Nat) (h : xs.length = 32) :
    word (xs ++ rest) 0 = beWord xs := by
  simp only [word, List.drop_zero]
  rw [← h, List.take_left]

theorem word_skip (xs rest : List Nat) (h : xs.length = 32) (k : Nat) :
    word (xs ++ rest) (32 + k) = word rest k := by
  simp only [word]
  rw [show 32 + k = xs.length + k by omega, List.drop_append]

theorem drop_skip (xs rest : List Nat) (h : xs.length = 32) (k : Nat) :
    (xs ++ rest).drop (32 + k) = rest.drop k := by
  rw [show 32 + k = xs.length + k by omega, List.drop_append]

theorem padRight32_length (r : List Nat) :
    (padRight32 r).length = r.length + (32 - r.length % 32) % 32 := by
  simp [padRight32]

theorem encodeABA_length (v : Nat) (r : List Nat) :
    (encodeABA v r).length = 128 + r.length + (32 - r.length % 32) % 32 := by
  simp [encodeABA, beBytesN_length, padRight32_length]
  omega

/-- Core round-trip fact: an ABA-encoded payload decodes back to its
components. -/
theorem decodeABA_encodeABA (v : Nat) (r : List Nat)
    (hv : v < 2 ^ 256) (hr : r.length < 2 ^ 64) :
    decodeABA (encodeABA v r) = .ok (v, ABA_TYPE, r) := by
  have hA : (beBytesN 32 v).length = 32 := beBytesN_length 32 v
  have hB : (beBytesN 32 ABA_TYPE).length = 32 := beBytesN_length 32 ABA_TYPE
  have hC : (beBytesN 32 96).length = 32 := beBytesN_length 32 96
  have hD : (beBytesN 32 r.length).length = 32 := beBytesN_length 32 r.length
  have hlen := encodeABA_length v r
  have hmsg : encodeABA v r = beBytesN 32 v ++ (beBytesN 32 ABA_TYPE ++
      (beBytesN 32 96 ++ (beBytesN 32 r.length ++ padRight32 r))) := by
    rw [encodeABA, List.append_assoc, List.append_assoc, List.append_assoc]
  have hw0 : word (encodeABA v r) 0 = v := by
    rw [hmsg, word_here _ _ hA, beWord_beBytesN 32 v (by rw [pow256_32]; exact hv)]
  have hw32 : word (encodeABA v r) 32 = ABA_TYPE := by
    rw [hmsg]
    exact (word_skip _ _ hA 0).trans ((word_here _ _ hB).trans
      (beWord_beBytesN 32 ABA_TYPE (by norm_num [ABA_TYPE])))
  have hw64 : word (encodeABA v r) 64 = 96 := by
    rw [hmsg]
    exact (word_skip _ _ hA 32).trans ((word_skip _ _ hB 0).trans
      ((word_here _ _ hC).trans (beWord_beBytesN 32 96 (by norm_num))))
  have hw96 : word (encodeABA v r) 96 = r.length := by
    rw [hmsg]
    exact (word_skip _ _ hA 64).trans ((word_skip _ _ hB 32).trans
      ((word_skip _ _ hC 0).trans ((word_here _ _ hD).trans
        (beWord_beBytesN 32 r.length (by
          have h2 : (2 : Nat) ^ 64 < 256 ^ 32 := by norm_num
          omega)))))
  have hdrop : (encodeABA v r).drop 128 = padRight32 r := by
    rw [hmsg]
    exact (drop_skip _ _ hA 96).trans ((drop_skip _ _ hB 64).trans
      ((drop_skip _ _ hC 32).trans ((drop_skip _ _ hD 0).trans
        (List.drop_zero _))))
  have htail : ((encodeABA v r).drop (96 + 32)).take r.length = r := by
    have h1 : (encodeABA v r).drop (96 + 32) = padRight32 r := hdrop
    rw [h1, padRight32]
    exact List.take_left r _
  rw [decodeABA]
  rw [if_neg (by omega), if_neg (by omega)]
  simp only [hw0, hw32, hw64, hw96]
  rw [if_neg (by norm_num [ABA_TYPE]), if_neg (by norm_num),
    if_neg (by omega), if_neg (by omega), if_neg (by omega)]
  rw [htail]

/-- `decode` succeeds exactly on 32-byte inputs and reads the word. -/
theorem decode_spec (msg : List Nat) :
    decode msg = if msg.length = 32 then .ok (beWord msg)
      else .error CodecErr.invalidMsgLength := by
  by_cases h : msg.length = 32
  · simp [decode, h, List.take_of_length_le (Nat.le_of_eq h)]
  · simp [decode, h]

theorem encode_length (v : Nat) : (encode v).length = 32 :=
  beBytesN_length 32 v

theorem decode_encode (v : Nat) (hv : v < 2 ^ 256) :
    decode (encode v) = .ok v := by
  rw [decode_spec, if_pos (encode_length v), encode,
    beWord_beBytesN 32 v (by rw [pow256_32]; exact hv)]

/-- The vanilla branch of `decodeABA`: any 32-byte buffer decodes to its
word with the `0` sentinel type and empty options. -/
theorem decodeABA_of_length32 (msg : List Nat) (h : msg.length = 32) :
    decodeABA msg = .ok (beWord msg, 0, []) := by
  rw [decodeABA, if_pos h, List.take_of_length_le (Nat.le_of_eq h)]

/-- If `decodeABA` succeeds on a non-32-byte buffer, every bounds check of
the ABI decoder was satisfied. -/
theorem decodeABA_ok_bounds (msg : List Nat) (out : Nat × Nat × List Nat)
    (h32 : msg.length ≠ 32) (h : decodeABA msg = .ok out) :
    96 ≤ msg.length ∧ word msg 32 < 2 ^ 16 ∧
      word msg 64 < 2 ^ 64 ∧ word msg 64 + 32 ≤ msg.length ∧
      word msg (word msg 64) < 2 ^ 64 ∧
      word msg 64 + 32 + word msg (word msg 64) ≤ msg.length := by
  simp only [decodeABA, h32, if_false, ite_false] at h
  split_ifs at h with h1 h2 h3 h4 h5 h6 <;> simp at h <;> omega

theorem exists_error_of_not_ok (x : Except CodecErr (Nat × Nat × List Nat))
    (h : ∀ out, x ≠ .ok out) : ∃ e, x = .error e := by
  cases x with
  | error e => exact ⟨e, rfl⟩
  | ok out => exact absurd rfl (h out)

end Uint256MsgCodec

namespace MyOApp

open Uint256MsgCodec

/-- An entry of an options blob. `lzReceive` is a structured executor
option carrying a gas limit and a native-value drop; `raw` is an opaque
byte string appended verbatim (caller-supplied options, reply options).
Modelled from the spec (§4.2, §6): `OptionsBuilder`, `ExecutorOptions` and
`combineOptions` live in the external LayerZero `oapp-evm` package, outside
this repository's sources; the spec describes options as a tagged sequence
of entries with the enforced prefix concatenated ahead of caller options. -/
inductive OptionEntry where
  | lzReceive (gas : Nat) (drop : Nat)
  | raw (bytes : List Nat)
  deriving DecidableEq, Repr

/-- `OptionsBuilder.newOptions()`: the empty option set.
Modelled from the spec (§4.2). -/
def newOptions : List OptionEntry := []

/-- `OptionsBuilder.addExecutorLzReceiveOption`: appends a typed executor
entry. Modelled from the spec (§4.2, §6). -/
def addExecutorLzReceiveOption (opts : List OptionEntry) (gas drop : Nat) :
    List OptionEntry :=
  opts ++ [OptionEntry.lzReceive gas drop]

/-- `combineOptions` (via `_combineOptionsMemory`): concatenates the
path's enforced default options ahead of the supplied options.
Modelled from the spec (§4.2): the composer never drops or reorders the
enforced-options prefix relative to the supplied options. -/
def combineOptions (enforced : Nat → Nat → List OptionEntry)
    (eid msgType : Nat) (opts : List OptionEntry) : List OptionEntry :=
  enforced eid msgType ++ opts

/-- A request handed to the transport's `_lzSend`. -/
structure SendReq where
  dstEid : Nat
  message : List Nat
  options : List OptionEntry
  feeNative : Nat
  feeLz : Nat
  deriving DecidableEq, Repr

/-- A request handed to the transport's fee oracle `_quote`. -/
structure QuoteReq where
  dstEid : Nat
  message : List Nat
  options : List OptionEntry
  payInLzToken : Bool
  deriving DecidableEq, Repr

/-- Reverts of the engine: checked uint256 subtraction underflow, checked
uint128 addition overflow, codec reverts, and a transport send failure. -/
inductive EngineErr where
  | underflow
  | gasOverflow
  | decodeFailed (e : CodecErr)
  | sendFailed
  deriving DecidableEq, Repr

/-- `MyOApp.send`: decrements `ball` (checked), encodes the ABA message
with the new ball and the return options, builds the executor option with
gas `180000 + _returnGasEstimate` (checked uint128 add) and drop `0`,
packs it ahead of the caller options, combines with enforced options, and
hands the request to the transport with fee `(msg.value, 0)`. Returns the
new ball and the transport request; an error means the call reverts with
no state change. -/
def send (enforced : Nat → Nat → List OptionEntry) (ball : Nat)
    (msgValue : Nat) (dstEid : Nat) (returnOptions : List Nat)
    (returnGasEstimate : Nat) (options : List Nat) :
    Except EngineErr (Nat × SendReq) :=
  if ball = 0 then .error .underflow
  else
    let newBall := ball - 1
    let message := encodeABA newBall returnOptions
    if 2 ^ 128 ≤ 180000 + returnGasEstimate then .error .gasOverflow
    else
      let abaOptions :=
        addExecutorLzReceiveOption newOptions (180000 + returnGasEstimate) 0
      let packedOptions := abaOptions ++ [OptionEntry.raw options]
      let combinedOptions := combineOptions enforced dstEid ABA_TYPE packedOptions
      let req : SendReq := { dstEid := dstEid, message := message,
                             options := combinedOptions,
                             feeNative := msgValue, feeLz := 0 }
      .ok (newBall, req)

/-- `MyOApp.quote`: builds the same ABA message (from `ball - 1`, checked)
and the same combined options as `send`, and hands them to the fee oracle.
A `view` function: the returned state is the unchanged input ball. -/
def quote (enforced : Nat → Nat → List OptionEntry) (ball : Nat)
    (dstEid : Nat) (returnOptions : List Nat) (returnGasEstimate : Nat)
    (options : List Nat) (payInLzToken : Bool) :
    Except EngineErr (Nat × QuoteReq) :=
  if ball = 0 then .error .underflow
  else
    let tempBall := ball - 1
    let abaMessage := encodeABA tempBall returnOptions
    if 2 ^ 128 ≤ 180000 + returnGasEstimate then .error .gasOverflow
    else
      let abaOptions :=
        addExecutorLzReceiveOption newOptions (180000 + returnGasEstimate) 0
      let packedOptions := abaOptions ++ [OptionEntry.raw options]
      let combinedOptions := combineOptions enforced dstEid ABA_TYPE packedOptions
      let req : QuoteReq := { dstEid := dstEid, message := abaMessage,
                              options := combinedOptions,
                              payInLzToken := payInLzToken }
      .ok (ball, req)

/-- Outcome of one `_lzReceive` call. `ball` is the last value written to
storage, `sends` the requests handed to the transport, and `err` records a
terminal failure of the call (`none` means success).
Modelled from the spec (§4.4): the transport (`_lzSend`) is external to
this repository, and steps 2 and 3 of `receive` are two independently
observable actions — a reply-leg failure is terminal for the call but does
not roll back the already-performed Value writes. -/
structure RecvResult where
  ball : Nat
  sends : List SendReq
  err : Option EngineErr
  deriving DecidableEq, Repr

/-- `MyOApp._lzReceive`: decodes the payload with `decodeABA` (decode
failure is fatal with no state change), writes the decoded value to
`ball`, and — exactly when the decoded type equals `ABA_TYPE` — decrements
`ball` (checked), encodes the vanilla reply, and hands it to the transport
with the decoded return options verbatim and fee `(msg.value, 0)`.
`transport` says whether the transport accepts a given request. -/
def lzReceive (transport : SendReq → Bool) (ball : Nat) (msgValue : Nat)
    (srcEid : Nat) (payload : List Nat) : RecvResult :=
  match decodeABA payload with
  | .error e => { ball := ball, sends := [], err := some (.decodeFailed e) }
  | .ok (value, msgType, returnOptions) =>
    let ball1 := value
    if msgType = ABA_TYPE then
      if ball1 = 0 then { ball := ball1, sends := [], err := some .underflow }
      else
        let ball2 := ball1 - 1
        let returnMessage := encode ball2
        let req : SendReq := { dstEid := srcEid, message := returnMessage,
                               options := [OptionEntry.raw returnOptions],
                               feeNative := msgValue, feeLz := 0 }
        if transport req then { ball := ball2, sends := [req], err := none }
        else { ball := ball2, sends := [req], err := some .sendFailed }
    else { ball := ball1, sends := [], err := none }

end MyOApp

open Uint256MsgCodec MyOApp

set_option maxRecDepth 10000 in
/-- C1 counterexample: the claim requires `decodeABA` to error whenever the
tail offset read from the third head slot lies outside `[96, length]`, but
a 128-byte all-zero buffer has tail offset `0 < 96` and still decodes
successfully (the ABI decoder lets the tail alias the head region). -/
theorem decodeABA_accepts_offset_below_96 :
    (List.replicate 128 0).length = 128 ∧
      word (List.replicate 128 0) 64 = 0 ∧
      ¬ 96 ≤ word (List.replicate 128 0) 64 ∧
      decodeABA (List.replicate 128 0) = .ok (0, 0, []) :=
  ⟨rfl, rfl, by decide, rfl⟩

/-- C1 (amended): for every buffer whose length is not exactly 32 bytes,
`decodeABA` errors whenever the total length is below 96, or the tail
offset read from the third head slot exceeds `length - 32` (no room for
the tail length word) or the 64-bit offset cap, or the declared tail
length of returnOptions overruns the buffer; offsets below 96 that stay
within the buffer are accepted rather than rejected. -/
theorem decodeABA_bounds_rejection (msg : List Nat) (h32 : msg.length ≠ 32) :
    (msg.length < 96 → ∃ e, decodeABA msg = .error e) ∧
      (2 ^ 64 ≤ word msg 64 → ∃ e, decodeABA msg = .error e) ∧
      (msg.length < word msg 64 + 32 → ∃ e, decodeABA msg = .error e) ∧
      (msg.length < word msg 64 + 32 + word msg (word msg 64) →
        ∃ e, decodeABA msg = .error e) := by
  refine ⟨?_, ?_, ?_, ?_⟩ <;> intro hc <;>
    refine exists_error_of_not_ok _ (fun out hok => ?_) <;>
    have hb := decodeABA_ok_bounds msg out h32 hok <;> omega

/-- C1 witness: a 40-byte truncated buffer (head present only partially)
is rejected by `decodeABA`. -/
theorem decodeABA_bounds_rejection_witness :
    ∃ e, decodeABA (List.replicate 40 0) = .error e :=
  (decodeABA_bounds_rejection (List.replicate 40 0) (by decide)).1 (by decide)

/-- C2: for every 256-bit value `v` and every byte string `r` whose length
fits the ABI decoder's 64-bit cap (a bound every EVM calldata buffer
satisfies), decoding `encodeABA v r` succeeds and returns exactly
`(v, ABA_TYPE, r)`. -/
theorem encodeABA_decodeABA_roundtrip (v : Nat) (r : List Nat)
    (hv : v < 2 ^ 256) (hr : r.length < 2 ^ 64) :
    decodeABA (encodeABA v r) = .ok (v, ABA_TYPE, r) :=
  decodeABA_encodeABA v r hv hr

set_option maxRecDepth 10000 in
/-- C2 witness (Scenario A): `encodeABA 100 []` is a 128-byte buffer with
head slots `[100][2][96]`, a zero-length tail, and decodes back to
`(100, 2, [])`. -/
theorem encodeABA_decodeABA_roundtrip_witness :
    (encodeABA 100 []).length = 128 ∧
      word (encodeABA 100 []) 0 = 100 ∧
      word (encodeABA 100 []) 32 = 2 ∧
      word (encodeABA 100 []) 64 = 96 ∧
      word (encodeABA 100 []) 96 = 0 ∧
      decodeABA (encodeABA 100 []) = .ok (100, ABA_TYPE, []) :=
  ⟨rfl, rfl, rfl, rfl, rfl,
    encodeABA_decodeABA_roundtrip 100 [] (by norm_num) (by norm_num)⟩

/-- C3: every exactly-32-byte buffer, regardless of content, decodes to
its word value (a 256-bit value when the entries are bytes) with the
Vanilla sentinel `msgType = 0` and empty returnOptions — the ABA head
layout is never attempted. -/
theorem decodeABA_vanilla_dispatch (msg : List Nat) (h : msg.length = 32)
    (hb : ∀ b ∈ msg, b < 256) :
    decodeABA msg = .ok (beWord msg, 0, []) ∧ beWord msg < 2 ^ 256 := by
  refine ⟨decodeABA_of_length32 msg h, ?_⟩
  have := beWord_lt msg hb
  rw [h, pow256_32] at this
  exact this

set_option maxRecDepth 10000 in
/-- C3 witness (Scenario B): the 32-byte big-endian buffer for 100 decodes
to `(100, 0, [])`. -/
theorem decodeABA_vanilla_dispatch_witness :
    (decodeABA (beBytesN 32 100) = .ok (beWord (beBytesN 32 100), 0, []) ∧
      beWord (beBytesN 32 100) < 2 ^ 256) ∧
      beWord (beBytesN 32 100) = 100 :=
  ⟨decodeABA_vanilla_dispatch (beBytesN 32 100) (beBytesN_length 32 100)
    (beBytesN_lt 32 100), rfl⟩

set_option maxRecDepth 10000 in
/-- C4 counterexample: the payload `encodeABA 0 []` decodes successfully
with the exact ABA tag, yet the receive issues zero outbound sends — the
checked reply decrement reverts at value 0 before any send. -/
theorem lzReceive_aba_tag_zero_sends :
    decodeABA (encodeABA 0 []) = .ok (0, ABA_TYPE, []) ∧
      (lzReceive (fun _ => true) 5 0 1 (encodeABA 0 [])).sends = [] ∧
      (lzReceive (fun _ => true) 5 0 1 (encodeABA 0 [])).err =
        some .underflow :=
  ⟨rfl, rfl, rfl⟩

/-- C4 (amended): for every payload that `_lzReceive` successfully
decodes, it issues exactly one outbound transport send when the decoded
msgType equals the ABA tag and the decoded value is nonzero (a zero value
reverts on the checked reply decrement before any send), and issues zero
outbound sends when the tag differs from the exact ABA tag (such tags are
still accepted for decode). -/
theorem lzReceive_reply_count (tr : SendReq → Bool) (b0 mv src : Nat)
    (payload : List Nat) (v t : Nat) (r : List Nat)
    (hd : decodeABA payload = .ok (v, t, r)) :
    (t = ABA_TYPE → 1 ≤ v →
      (lzReceive tr b0 mv src payload).sends.length = 1) ∧
      (t ≠ ABA_TYPE → (lzReceive tr b0 mv src payload).sends = []) := by
  constructor
  · intro ht hv
    simp only [lzReceive, hd, ht, if_pos rfl,
      if_neg (by omega : ¬ v = 0)]
    split_ifs <;> rfl
  · intro ht
    simp only [lzReceive, hd, if_neg ht]

/-- C4 witness: a freshly encoded ABA payload carrying value 9 triggers
exactly one reply send, and a vanilla 32-byte payload triggers none. -/
theorem lzReceive_reply_count_witness :
    (lzReceive (fun _ => true) 1 2 3 (encodeABA 9 [5])).sends.length = 1 ∧
      (lzReceive (fun _ => true) 1 2 3 (encode 77)).sends = [] :=
  ⟨(lzReceive_reply_count (fun _ => true) 1 2 3 (encodeABA 9 [5]) 9 ABA_TYPE [5]
      (decodeABA_encodeABA 9 [5] (by norm_num) (by norm_num))).1 rfl (by norm_num),
    (lzReceive_reply_count (fun _ => true) 1 2 3 (encode 77) (beWord (encode 77)) 0 []
      (decodeABA_of_length32 (encode 77) (encode_length 77))).2 (by norm_num [ABA_TYPE])⟩

set_option maxRecDepth 10000 in
/-- C5 counterexample: the claim quantifies over every ABA-tagged value
`v`, but at `v = 0` the receive reverts on the checked reply decrement and
sends no reply at all (rather than decrementing Value to `v - 1` and
replying with `encodeVanilla (v - 1)`). -/
theorem lzReceive_aba_zero_value_reverts :
    decodeABA (encodeABA 0 [1, 2, 3]) = .ok (0, ABA_TYPE, [1, 2, 3]) ∧
      (lzReceive (fun _ => true) 7 3 1 (encodeABA 0 [1, 2, 3])).sends = [] ∧
      (lzReceive (fun _ => true) 7 3 1 (encodeABA 0 [1, 2, 3])).err =
        some .underflow :=
  ⟨rfl, rfl, rfl⟩

/-- C5 (amended): for every receive of an ABA-tagged message carrying a
nonzero value `v` and returnOptions `r`, after setting Value to `v` the
engine decrements Value to `v - 1`, and the single reply handed to the
transport for the source path is `encode (v - 1)` with options exactly `r`
taken verbatim and fee exactly the forwarded native value. -/
theorem lzReceive_aba_reply_content (tr : SendReq → Bool) (b0 mv src v : Nat)
    (payload : List Nat) (r : List Nat)
    (hd : decodeABA payload = .ok (v, ABA_TYPE, r)) (hv : 1 ≤ v) :
    (lzReceive tr b0 mv src payload).sends =
      [{ dstEid := src, message := encode (v - 1),
         options := [OptionEntry.raw r], feeNative := mv, feeLz := 0 }] ∧
      (lzReceive tr b0 mv src payload).ball = v - 1 := by
  simp only [lzReceive, hd, if_pos rfl, if_neg (by omega : ¬ v = 0)]
  split_ifs <;> exact ⟨rfl, rfl⟩

/-- C5 witness: receiving `encodeABA 5 [9]` with forwarded value 6 from
path 3 sends exactly `encode 4` with options `[9]` and fee 6, leaving
Value at 4. -/
theorem lzReceive_aba_reply_content_witness :
    (lzReceive (fun _ => true) 2 6 3 (encodeABA 5 [9])).sends =
      [{ dstEid := 3, message := encode 4,
         options := [OptionEntry.raw [9]], feeNative := 6, feeLz := 0 }] ∧
      (lzReceive (fun _ => true) 2 6 3 (encodeABA 5 [9])).ball = 4 :=
  lzReceive_aba_reply_content (fun _ => true) 2 6 3 5 (encodeABA 5 [9]) [9]
    (decodeABA_encodeABA 5 [9] (by norm_num) (by norm_num)) (by norm_num)

/-- C6: if the transport rejects the reply-leg send (for example because
the forwarded native value is below the reply's fee), the receive call
terminates with `sendFailed`, but the Value writes performed before the
send are not rolled back — Value remains updated from the forward leg
(at the decremented reply value `v - 1`), not at its pre-receive value. -/
theorem lzReceive_reply_failure_not_rolled_back (tr : SendReq → Bool)
    (b0 mv src v : Nat) (payload : List Nat) (r : List Nat)
    (hd : decodeABA payload = .ok (v, ABA_TYPE, r)) (hv : 1 ≤ v)
    (hf : tr { dstEid := src, message := encode (v - 1),
               options := [OptionEntry.raw r],
               feeNative := mv, feeLz := 0 } = false) :
    (lzReceive tr b0 mv src payload).err = some .sendFailed ∧
      (lzReceive tr b0 mv src payload).ball = v - 1 := by
  simp only [lzReceive, hd, if_pos rfl, if_neg (by omega : ¬ v = 0), hf,
    Bool.false_eq_true, if_false, ite_false]
  exact ⟨rfl, rfl⟩

/-- C6 witness (Scenario D, failing half): with a transport that accepts a
request only when its forwarded native value reaches the reply fee 5,
forwarding 4 (one unit less) makes the reply send fail terminally while
Value stays at the forward leg's decremented value 2. -/
theorem lzReceive_reply_failure_not_rolled_back_witness :
    (lzReceive (fun req => decide (5 ≤ req.feeNative)) 10 4 4
        (encodeABA 3 [])).err = some .sendFailed ∧
      (lzReceive (fun req => decide (5 ≤ req.feeNative)) 10 4 4
        (encodeABA 3 [])).ball = 2 :=
  lzReceive_reply_failure_not_rolled_back (fun req => decide (5 ≤ req.feeNative))
    10 4 4 3 (encodeABA 3 []) []
    (decodeABA_encodeABA 3 [] (by norm_num) (by norm_num)) (by norm_num)
    (by decide)

/-- C7: for every returnGasEstimate `g` (with the checked uint128 addition
in range), the executor lzReceive option composed by `send` — and
identically by `quote` — carries gas limit exactly `180000 + g` and native
drop 0, placed after the enforced-options prefix and before the caller
options, with nothing dropped or reordered. -/
theorem send_gas_composition (enforced : Nat → Nat → List OptionEntry)
    (ball mv eid g : Nat) (r copts : List Nat) (pay : Bool)
    (hb : 1 ≤ ball) (hg : 180000 + g < 2 ^ 128) :
    ∃ req qreq,
      send enforced ball mv eid r g copts = .ok (ball - 1, req) ∧
      quote enforced ball eid r g copts pay = .ok (ball, qreq) ∧
      req.options = enforced eid ABA_TYPE ++
        [OptionEntry.lzReceive (180000 + g) 0, OptionEntry.raw copts] ∧
      qreq.options = req.options := by
  have hs : send enforced ball mv eid r g copts = .ok (ball - 1,
      { dstEid := eid, message := encodeABA (ball - 1) r,
        options := combineOptions enforced eid ABA_TYPE
          (addExecutorLzReceiveOption newOptions (180000 + g) 0 ++
            [OptionEntry.raw copts]),
        feeNative := mv, feeLz := 0 }) := by
    simp only [send]
    rw [if_neg (by omega), if_neg (by omega)]
  have hq : quote enforced ball eid r g copts pay = .ok (ball,
      { dstEid := eid, message := encodeABA (ball - 1) r,
        options := combineOptions enforced eid ABA_TYPE
          (addExecutorLzReceiveOption newOptions (180000 + g) 0 ++
            [OptionEntry.raw copts]),
        payInLzToken := pay }) := by
    simp only [quote]
    rw [if_neg (by omega), if_neg (by omega)]
  exact ⟨_, _, hs, hq,
    by simp [combineOptions, addExecutorLzReceiveOption, newOptions], rfl⟩

/-- C7 witness (Scenario C): `returnGasEstimate = 50000` composes an
lzReceive gas limit of exactly `230000` with drop 0, after the enforced
prefix and before the caller options. -/
theorem send_gas_composition_witness :
    ∃ req qreq,
      send (fun _ _ => [OptionEntry.raw [8]]) 5 11 7 [1] 50000 [9] =
        .ok (4, req) ∧
      quote (fun _ _ => [OptionEntry.raw [8]]) 5 7 [1] 50000 [9] false =
        .ok (5, qreq) ∧
      req.options = [OptionEntry.raw [8],
        OptionEntry.lzReceive 230000 0, OptionEntry.raw [9]] ∧
      qreq.options = req.options :=
  send_gas_composition (fun _ _ => [OptionEntry.raw [8]]) 5 11 7 50000 [1] [9]
    false (by norm_num) (by norm_num)

/-- C8: for every input tuple, `quote` builds the ABA message (encoding
`ball - 1` with the returnOptions) and the combined options blob exactly
as `send` does from the same pre-state, and `quote` leaves the state
unchanged (its returned ball is the input ball). -/
theorem quote_matches_send (enforced : Nat → Nat → List OptionEntry)
    (ball mv eid g : Nat) (r copts : List Nat) (pay : Bool)
    (hb : 1 ≤ ball) (hg : 180000 + g < 2 ^ 128) :
    ∃ req qreq,
      send enforced ball mv eid r g copts = .ok (ball - 1, req) ∧
      quote enforced ball eid r g copts pay = .ok (ball, qreq) ∧
      qreq.message = req.message ∧
      qreq.options = req.options ∧
      req.message = encodeABA (ball - 1) r := by
  have hs : send enforced ball mv eid r g copts = .ok (ball - 1,
      { dstEid := eid, message := encodeABA (ball - 1) r,
        options := combineOptions enforced eid ABA_TYPE
          (addExecutorLzReceiveOption newOptions (180000 + g) 0 ++
            [OptionEntry.raw copts]),
        feeNative := mv, feeLz := 0 }) := by
    simp only [send]
    rw [if_neg (by omega), if_neg (by omega)]
  have hq : quote enforced ball eid r g copts pay = .ok (ball,
      { dstEid := eid, message := encodeABA (ball - 1) r,
        options := combineOptions enforced eid ABA_TYPE
          (addExecutorLzReceiveOption newOptions (180000 + g) 0 ++
            [OptionEntry.raw copts]),
        payInLzToken := pay }) := by
    simp only [quote]
    rw [if_neg (by omega), if_neg (by omega)]
  exact ⟨_, _, hs, hq, rfl, rfl, rfl⟩

/-- C8 witness: at ball 5, `quote` and `send` build the identical message
`encodeABA 4 [1]` and identical combined options, and `quote` returns the
unchanged ball 5. -/
theorem quote_matches_send_witness :
    ∃ req qreq,
      send (fun _ _ => []) 5 11 7 [1] 50000 [9] = .ok (4, req) ∧
      quote (fun _ _ => []) 5 7 [1] 50000 [9] true = .ok (5, qreq) ∧
      qreq.message = req.message ∧
      qreq.options = req.options ∧
      req.message = encodeABA 4 [1] :=
  quote_matches_send (fun _ _ => []) 5 11 7 50000 [1] [9] true
    (by norm_num) (by norm_num)

/-- C9: for every 256-bit value `v`, `encode v` produces exactly 32 bytes
and `decode (encode v) = v`; and `decode` fails with `InvalidMsgLength` on
every input whose length is not exactly 32 bytes. -/
theorem encode_decode_vanilla (v : Nat) (hv : v < 2 ^ 256) :
    ((encode v).length = 32 ∧ decode (encode v) = .ok v) ∧
      ∀ msg : List Nat, msg.length ≠ 32 →
        decode msg = .error .invalidMsgLength := by
  refine ⟨⟨encode_length v, decode_encode v hv⟩, fun msg h => ?_⟩
  rw [decode_spec, if_neg h]

/-- C9 witness: `encode 100` is 32 bytes and decodes back to 100, while
the 3-byte buffer `[1, 2, 3]` is rejected with `InvalidMsgLength`. -/
theorem encode_decode_vanilla_witness :
    ((encode 100).length = 32 ∧ decode (encode 100) = .ok 100) ∧
      decode [1, 2, 3] = .error .invalidMsgLength :=
  ⟨(encode_decode_vanilla 100 (by norm_num)).1,
    (encode_decode_vanilla 100 (by norm_num)).2 [1, 2, 3] (by norm_num)⟩

/-- C10: in every state where Value is 0, `send` reverts on the checked
subtraction before any message is encoded or handed to the transport —
nothing is sent, Value never wraps; likewise a receive of an ABA-tagged
message carrying value 0 reverts on the reply-step decrement with no send,
instead of wrapping to `2 ^ 256 - 1`. -/
theorem zero_ball_reverts_not_wraps (enforced : Nat → Nat → List OptionEntry)
    (mv eid g b0 mv2 src : Nat) (r copts r2 : List Nat)
    (tr : SendReq → Bool) (hr2 : r2.length < 2 ^ 64) :
    send enforced 0 mv eid r g copts = .error .underflow ∧
      (lzReceive tr b0 mv2 src (encodeABA 0 r2)).err = some .underflow ∧
      (lzReceive tr b0 mv2 src (encodeABA 0 r2)).sends = [] ∧
      (lzReceive tr b0 mv2 src (encodeABA 0 r2)).ball = 0 := by
  have hd := decodeABA_encodeABA 0 r2 (by norm_num) hr2
  refine ⟨?_, ?_, ?_, ?_⟩
  · simp [send]
  all_goals simp [lzReceive, hd]

/-- C10 witness: with Value 0 a send reverts with underflow, and receiving
`encodeABA 0 [4]` errors with underflow, zero sends, and Value written 0
(not `2 ^ 256 - 1`). -/
theorem zero_ball_reverts_not_wraps_witness :
    send (fun _ _ => []) 0 3 7 [1] 50000 [9] = .error .underflow ∧
      (lzReceive (fun _ => true) 8 2 6 (encodeABA 0 [4])).err =
        some .underflow ∧
      (lzReceive (fun _ => true) 8 2 6 (encodeABA 0 [4])).sends = [] ∧
      (lzReceive (fun _ => true) 8 2 6 (encodeABA 0 [4])).ball = 0 :=
  zero_ball_reverts_not_wraps (fun _ _ => []) 3 7 50000 8 2 6 [1] [9] [4]
    (fun _ => true) (by norm_num)
